import Mathlib

/-!
Verification of the DataLabel invoice-PDF extraction pipeline (src/app.py).

Text is modelled as List Char.  The per-attempt pipeline (JSON extraction
from the model response, field-name normalization, tracking-number regex,
record assembly), the bounded retry loop, the batch loop and the CSV export
are embedded as executable functions, translated clause by clause from the
source.  The inference endpoint, the rasterizer and the model response are
external collaborators: each attempt's outcome is supplied by an oracle.
-/

set_option maxRecDepth 4096

/-- JSON whitespace characters accepted by Python's json module. -/
def isJsonWs (c : Char) : Bool :=
  c == ' ' || c == '\t' || c == '\n' || c == '\r'

/-- Characters stripped by Python's str.strip() (ASCII whitespace subset;
the unicode space characters Python also strips never occur here). -/
def pyIsSpace (c : Char) : Bool :=
  c == ' ' || c == '\t' || c == '\n' || c == '\r' || c == '\x0b' || c == '\x0c'

/-- The character class of the regex at src/app.py line 88: [A-Z0-9].
Uppercase letters and digits only; no IGNORECASE flag is passed. -/
def isTrackChar (c : Char) : Bool :=
  c.isUpper || c.isDigit

/-- One regex match attempt of the tracking pattern at the head of the
text: the literal characters 1 and Z followed by exactly 16 class characters
(src/app.py line 88).  Written with an explicit head match so that the
leftmost-match search below is exactly re.search. -/
def matchTrackAt (l : List Char) : Option (List Char) :=
  match l with
  | c1 :: c2 :: rest =>
    if c1 == '1' && c2 == 'Z' && (rest.take 16).length == 16
        && (rest.take 16).all isTrackChar
    then some (c1 :: c2 :: rest.take 16)
    else none
  | _ => none

/-- re.search: try the pattern at each position from the left, return the
first (leftmost) match. -/
def searchTrack : List Char → Option (List Char)
  | [] => none
  | c :: cs =>
    match matchTrackAt (c :: cs) with
    | some m => some m
    | none => searchTrack cs

/-- The sentinel returned when the pattern has no match (src/app.py line 89). -/
def noTrackingSentinel : List Char := "No Tracking Number Found".toList

/-- extract_tracking_number, src/app.py lines 86-89. -/
def extractTrackingNumber (text : List Char) : List Char :=
  (searchTrack text).getD noTrackingSentinel

/-- Association-list lookup; models Python dict lookup (keys are unique in
every dict the source builds, so first-match lookup coincides). -/
def alookup {α β : Type} [DecidableEq α] : List (α × β) → α → Option β
  | [], _ => none
  | (k', v) :: rest, k => if k' = k then some v else alookup rest k

/-- Association-list store d[k] = v; an existing key keeps its position and
gets the new value, a new key is appended.  This is Python 3.7+ dict
assignment semantics. -/
def aupdate {α β : Type} [DecidableEq α] : List (α × β) → α → β → List (α × β)
  | [], k, v => [(k, v)]
  | (k', v') :: rest, k, v =>
    if k' = k then (k', v) :: rest else (k', v') :: aupdate rest k v

/-- field_name_mapping, src/app.py lines 69-77. -/
def fieldNameMapping : List (List Char × List Char) :=
  [("INVOICE DATE".toList, "INVOICE_DATE".toList),
   ("INVOICE NUMBER".toList, "INVOICE_NUMBER".toList),
   ("CUST. PO#".toList, "CUSTOMER_PO".toList),
   ("SUB-TOTAL:".toList, "SUB_TOTAL".toList),
   ("FREIGHT:".toList, "FREIGHT".toList),
   ("TOTAL:".toList, "TOTAL".toList),
   ("TRACKING/PRO NUMBER".toList, "TRACKING_NUMBER".toList)]

/-- Python str.strip(): remove leading and trailing whitespace. -/
def pyStrip (k : List Char) : List Char :=
  ((k.dropWhile pyIsSpace).reverse.dropWhile pyIsSpace).reverse

/-- Python str.upper() restricted to ASCII (all keys in play are ASCII). -/
def pyUpper (k : List Char) : List Char :=
  k.map Char.toUpper

/-- key.strip().upper() followed by field_name_mapping.get(key, key),
src/app.py line 82. -/
def normKey (k : List Char) : List Char :=
  (alookup fieldNameMapping (pyUpper (pyStrip k))).getD (pyUpper (pyStrip k))

/-- The JSON values json.loads can return, with numbers and string bodies
kept as their source lexemes (equality of decoded values is only ever
compared between decodings of identical substrings, where the lexeme
representation is faithful). -/
inductive Json where
  | null : Json
  | bool : Bool → Json
  | num : List Char → Json
  | str : List Char → Json
  | arr : List Json → Json
  | obj : List (List Char × Json) → Json

instance : Inhabited Json := ⟨.null⟩

/-- A FieldRecord: mapping from field name to extracted value plus the
source document name (spec section 3). -/
abbrev Record := List (List Char × Json)

/-- normalize_field_names, src/app.py lines 79-84: rebuild the dict with
each key sent through normKey. -/
def normalizeFieldNames (d : List (List Char × Json)) : List (List Char × Json) :=
  d.foldl (fun acc kv => aupdate acc (normKey kv.1) kv.2) []

/-- Hexadecimal digit test for \uXXXX escapes. -/
def isHexChar (c : Char) : Bool :=
  c.isDigit || (decide ('a' ≤ c) && decide (c ≤ 'f')) || (decide ('A' ≤ c) && decide (c ≤ 'F'))

/-- JSON string body after the opening quote: validates escapes and the
ban on raw control characters, returns the body (escapes kept in source
form) and the remainder after the closing quote. -/
def parseStringBody : Nat → List Char → Option (List Char × List Char)
  | 0, _ => none
  | _, [] => none
  | fuel + 1, c :: rest =>
    if c == '"' then some ([], rest)
    else if c == '\\' then
      match rest with
      | [] => none
      | e :: rest' =>
        if e == '"' || e == '\\' || e == '/' || e == 'b' || e == 'f'
            || e == 'n' || e == 'r' || e == 't' then
          match parseStringBody fuel rest' with
          | some (s, r) => some ('\\' :: e :: s, r)
          | none => none
        else if e == 'u' then
          match rest' with
          | h1 :: h2 :: h3 :: h4 :: rest2 =>
            if isHexChar h1 && isHexChar h2 && isHexChar h3 && isHexChar h4 then
              match parseStringBody fuel rest2 with
              | some (s, r) => some ('\\' :: 'u' :: h1 :: h2 :: h3 :: h4 :: s, r)
              | none => none
            else none
          | _ => none
        else none
    else if c.toNat < 32 then none
    else
      match parseStringBody fuel rest with
      | some (s, r) => some (c :: s, r)
      | none => none

/-- Longest digit run at the head: the matched digits and the remainder. -/
def digitSpan (cs : List Char) : List Char × List Char :=
  (cs.takeWhile Char.isDigit, cs.dropWhile Char.isDigit)

/-- JSON integer part: 0, or a nonzero digit followed by digits. -/
def parseIntPart : List Char → Option (List Char × List Char)
  | '0' :: rest => some (['0'], rest)
  | c :: rest =>
    if c.isDigit then
      let (d, r) := digitSpan rest
      some (c :: d, r)
    else none
  | [] => none

/-- Optional JSON fraction part. -/
def parseFracPart : List Char → Option (List Char × List Char)
  | '.' :: rest =>
    let (d, r) := digitSpan rest
    if d.isEmpty then none else some ('.' :: d, r)
  | cs => some ([], cs)

/-- Optional JSON exponent part. -/
def parseExpPart : List Char → Option (List Char × List Char)
  | c :: rest =>
    if c == 'e' || c == 'E' then
      let (sgn, rest') :=
        match rest with
        | s :: t => if s == '+' || s == '-' then ([s], t) else (([] : List Char), s :: t)
        | [] => ([], [])
      let (d, r) := digitSpan rest'
      if d.isEmpty then none else some (c :: (sgn ++ d), r)
    else some ([], c :: rest)
  | [] => some ([], [])

/-- JSON number lexeme at the head of the input. -/
def parseNumber (cs : List Char) : Option (List Char × List Char) :=
  let (neg, cs₁) := match cs with
    | '-' :: t => ((['-'] : List Char), t)
    | _ => ([], cs)
  match parseIntPart cs₁ with
  | none => none
  | some (ip, r₁) =>
    match parseFracPart r₁ with
    | none => none
    | some (fp, r₂) =>
      match parseExpPart r₂ with
      | none => none
      | some (ep, r₃) => some (neg ++ ip ++ fp ++ ep, r₃)

/-- Skip JSON whitespace. -/
def skipWs (cs : List Char) : List Char := cs.dropWhile isJsonWs

mutual

/-- Recursive-descent JSON value, modelling json.loads (which by default
also accepts the non-standard constants NaN, Infinity, -Infinity). -/
def parseValue : Nat → List Char → Option (Json × List Char)
  | 0, _ => none
  | fuel + 1, cs =>
    match skipWs cs with
    | [] => none
    | '{' :: r =>
      match skipWs r with
      | '}' :: r₂ => some (.obj [], r₂)
      | _ =>
        match parseMember fuel r with
        | some (kv, r₁) =>
          match parseMembersRest fuel r₁ with
          | some (kvs, r₂) => some (.obj (kv :: kvs), r₂)
          | none => none
        | none => none
    | '[' :: r =>
      match skipWs r with
      | ']' :: r₂ => some (.arr [], r₂)
      | _ =>
        match parseValue fuel r with
        | some (v, r₁) =>
          match parseElementsRest fuel r₁ with
          | some (vs, r₂) => some (.arr (v :: vs), r₂)
          | none => none
        | none => none
    | '"' :: r =>
      match parseStringBody (r.length + 1) r with
      | some (s, r₁) => some (.str s, r₁)
      | none => none
    | 't' :: 'r' :: 'u' :: 'e' :: r => some (.bool true, r)
    | 'f' :: 'a' :: 'l' :: 's' :: 'e' :: r => some (.bool false, r)
    | 'n' :: 'u' :: 'l' :: 'l' :: r => some (.null, r)
    | 'N' :: 'a' :: 'N' :: r => some (.num ('N' :: 'a' :: 'N' :: []), r)
    | 'I' :: 'n' :: 'f' :: 'i' :: 'n' :: 'i' :: 't' :: 'y' :: r =>
      some (.num "Infinity".toList, r)
    | '-' :: 'I' :: 'n' :: 'f' :: 'i' :: 'n' :: 'i' :: 't' :: 'y' :: r =>
      some (.num "-Infinity".toList, r)
    | c :: r =>
      if c == '-' || c.isDigit then
        match parseNumber (c :: r) with
        | some (lex, r₁) => some (.num lex, r₁)
        | none => none
      else none

/-- One object member: string key, colon, value. -/
def parseMember : Nat → List Char → Option ((List Char × Json) × List Char)
  | 0, _ => none
  | fuel + 1, cs =>
    match skipWs cs with
    | '"' :: r =>
      match parseStringBody (r.length + 1) r with
      | some (key, r₁) =>
        match skipWs r₁ with
        | ':' :: r₂ =>
          match parseValue fuel r₂ with
          | some (v, r₃) => some ((key, v), r₃)
          | none => none
        | _ => none
      | none => none
    | _ => none

/-- Remaining object members: a comma and a member, repeatedly, then the
closing brace. -/
def parseMembersRest : Nat → List Char → Option (List (List Char × Json) × List Char)
  | 0, _ => none
  | fuel + 1, cs =>
    match skipWs cs with
    | ',' :: r =>
      match parseMember fuel r with
      | some (kv, r₁) =>
        match parseMembersRest fuel r₁ with
        | some (kvs, r₂) => some (kv :: kvs, r₂)
        | none => none
      | none => none
    | '}' :: r => some ([], r)
    | _ => none

/-- Remaining array elements: a comma and a value, repeatedly, then the
closing bracket. -/
def parseElementsRest : Nat → List Char → Option (List Json × List Char)
  | 0, _ => none
  | fuel + 1, cs =>
    match skipWs cs with
    | ',' :: r =>
      match parseValue fuel r with
      | some (v, r₁) =>
        match parseElementsRest fuel r₁ with
        | some (vs, r₂) => some (v :: vs, r₂)
        | none => none
      | none => none
    | ']' :: r => some ([], r)
    | _ => none

end

/-- json.loads: a full JSON value with only whitespace around it.  The fuel
bounds the nesting recursion; two units per consumed character is a safe
over-approximation. -/
def jsonParse (cs : List Char) : Option Json :=
  match parseValue (2 * cs.length + 4) cs with
  | some (v, rest) => if (skipWs rest).isEmpty then some v else none
  | none => none

/-- The substring matched by re.search of the DOTALL pattern that starts at
a literal open brace, greedily spans anything, and ends at a literal close
brace (src/app.py line 151): everything from the first open brace to the
last close brace of the text, empty when the pattern has no match. -/
def braceSpan (cs : List Char) : List Char :=
  (((cs.dropWhile (fun c => c != '{')).reverse.dropWhile (fun c => c != '}')).reverse)

/-- The two failure modes of the parsing step, plus the unreachable case of
a decoded non-object (the matched substring always starts with an open
brace, so a successful decode is an object; in the source a non-dict would
raise inside normalize_field_names and be retried like the others). -/
inductive PErr where
  | noJson : PErr
  | decodeFail : PErr
  | notDict : PErr
deriving DecidableEq

/-- src/app.py lines 149-156: locate the brace span and decode it;
no span raises the no-JSON error, a failed decode raises the JSON
parsing error. -/
def parseResponse (cs : List Char) : Except PErr Json :=
  let span := braceSpan cs
  if span.isEmpty then .error .noJson
  else
    match jsonParse span with
    | some v => .ok v
    | none => .error .decodeFail

def trackingKey : List Char := "TRACKING_NUMBER".toList

def pdfFileKey : List Char := "pdf_file".toList

/-- src/app.py lines 149-165: the pure tail of one successful attempt.
Decode the brace span of the response text, normalize the field names,
overwrite TRACKING_NUMBER with the regex result on the full raw text, and
store the source file name. -/
def attemptExtract (pdfFile raw : List Char) : Except PErr Record :=
  match parseResponse raw with
  | .error e => .error e
  | .ok (.obj kvs) =>
    .ok (aupdate
          (aupdate (normalizeFieldNames kvs) trackingKey
            (.str (extractTrackingNumber raw)))
          pdfFileKey (.str pdfFile))
  | .ok _ => .error .notDict

/-- The outcome the environment hands one attempt: a failure before the
temporary image is written (convert_from_path or the first-page access
raising, src/app.py lines 97-98), a failure after it is written (encoding
or the inference call raising, lines 106-143), or a raw response text from
the endpoint (line 146), after which the pure parsing tail runs. -/
inductive StageResult where
  | rasterFail : StageResult
  | inferFail : StageResult
  | response : List Char → StageResult

instance : Inhabited StageResult := ⟨.rasterFail⟩

/-- The user-visible messages the script emits, one constructor per st call
with the arguments that reach it. -/
inductive Msg where
  | parseWarn : List Char → Nat → Msg
  | respInfo : List Char → Msg
  | warnAttempt : List Char → Nat → Msg
  | retryInfo : List Char → Msg
  | allRetriesFailed : List Char → Msg
  | statusFailed : Msg
  | allProcessed : Msg
  | noData : Msg
deriving DecidableEq

/-- What one iteration of the retry loop observes and produces. -/
structure RunStats where
  attempts : Nat
  created : Nat
  removed : Nat
  failCleanups : Nat
  result : Option Record
  msgs : List Msg

/-- Classify one attempt: success with a record, or a failure carrying how
many temporary images the attempt wrote (0 when rasterization failed
before image.save, 1 otherwise — the failure handler at lines 180-181
removes the file exactly when it exists) and the messages of the inner
JSON handler (lines 172-175). -/
inductive AttemptStep where
  | ok : Record → AttemptStep
  | fail : Nat → List Msg → AttemptStep

/-- One attempt of process_pdf for a given stage outcome. -/
def stepOf (name : List Char) (a : Nat) (o : StageResult) : AttemptStep :=
  match o with
  | .rasterFail => .fail 0 []
  | .inferFail => .fail 1 []
  | .response raw =>
    match attemptExtract name raw with
    | .ok rec => .ok rec
    | .error PErr.decodeFail => .fail 1 [Msg.parseWarn name a, Msg.respInfo raw]
    | .error _ => .fail 1 []

/-- The retry loop of process_pdf, src/app.py lines 94-187: attempt index
a, remaining iterations as the last argument.  On success the temp image
is removed and the record returned (lines 168-170).  On failure the temp
image is removed when it exists (lines 180-181), and either the loop
continues after the retry notice (lines 182-184) or, on the last
iteration, the failure is announced and None returned (lines 185-187). -/
def runFrom (name : List Char) (oracle : Nat → StageResult) : Nat → Nat → RunStats
  | _, 0 => ⟨0, 0, 0, 0, none, []⟩
  | a, 1 =>
    match stepOf name a (oracle a) with
    | .ok rec => ⟨1, 1, 1, 0, some rec, []⟩
    | .fail cr ms =>
      ⟨1, cr, cr, cr, none, ms ++ [Msg.warnAttempt name a, Msg.allRetriesFailed name]⟩
  | a, Nat.succ (Nat.succ r) =>
    match stepOf name a (oracle a) with
    | .ok rec => ⟨1, 1, 1, 0, some rec, []⟩
    | .fail cr ms =>
      let rest := runFrom name oracle (a + 1) (Nat.succ r)
      ⟨rest.attempts + 1, rest.created + cr, rest.removed + cr, rest.failCleanups + cr,
        rest.result, ms ++ [Msg.warnAttempt name a, Msg.retryInfo name] ++ rest.msgs⟩

/-- process_pdf with its max_retries bound (default 3), starting at
attempt 0. -/
def processPdfRun (name : List Char) (oracle : Nat → StageResult) (maxRetries : Nat) :
    RunStats :=
  runFrom name oracle 0 maxRetries

/-- True when the attempt outcome does not yield a record. -/
def stepFails (name : List Char) (o : StageResult) : Bool :=
  match o with
  | .response raw =>
    match attemptExtract name raw with
    | .ok _ => false
    | .error _ => true
  | _ => true

/-- What the batch loop produces (src/app.py lines 196-229): the ordered
records of the documents that succeeded, and the emitted messages — each
run's own messages, the per-document Failed status (line 207), the closing
notice (line 213), and the empty-result error when no document yielded
data (lines 228-229). -/
structure BatchResult where
  records : List Record
  messages : List Msg

/-- The sequential loop over the uploaded documents, src/app.py
lines 196-229. -/
def processBatch (inputs : List (List Char × (Nat → StageResult))) (maxRetries : Nat) :
    BatchResult :=
  let stats := inputs.map (fun p => (p.1, processPdfRun p.1 p.2 maxRetries))
  let recs := stats.filterMap (fun s => s.2.result)
  { records := recs
    messages :=
      (stats.flatMap (fun s =>
        s.2.msgs ++ (if (s.2.result).isNone then [Msg.statusFailed] else [])))
      ++ [Msg.allProcessed]
      ++ (if recs.isEmpty then [Msg.noData] else []) }

/-- columns_order, src/app.py line 220. -/
def columnsOrder : List (List Char) :=
  ["INVOICE_DATE".toList, "INVOICE_NUMBER".toList, "CUSTOMER_PO".toList,
   "SUB_TOTAL".toList, "FREIGHT".toList, "TOTAL".toList,
   "TRACKING_NUMBER".toList, "pdf_file".toList]

/-- How one DataFrame cell prints in to_csv: a missing key reindexes to
NaN which renders as the empty cell; a string prints itself; a number
prints its lexeme; booleans print Python-style; null becomes None which
also renders empty; nested values never occur in the source's data. -/
def cellRender : Option Json → List Char
  | none => []
  | some (.str s) => s
  | some (.num lex) => lex
  | some (.bool true) => "True".toList
  | some (.bool false) => "False".toList
  | some .null => []
  | some (.arr _) => []
  | some (.obj _) => []

/-- pd.DataFrame(data) reindexed to columns_order, src/app.py
lines 217-221: the header is the fixed column list, each record becomes
one row with exactly those columns, extra keys are dropped, missing keys
render empty. -/
def exportTable (records : List Record) : List (List Char) × List (List (List Char)) :=
  (columnsOrder,
   records.map (fun r => columnsOrder.map (fun c => cellRender (alookup r c))))

/-- The header line of df.to_csv(index=False), src/app.py line 224: the
column names joined by commas, with no index column. -/
def csvHeaderLine : List Char :=
  List.intercalate ",".toList columnsOrder

/-- The spec's first IdentifierExtractor example input. -/
def trackingExampleInput : List Char := "...1Z12345D68905487401...".toList

/-- A response whose prose after the JSON object contains a close brace:
the greedy span then runs from the first open brace to that last close
brace and no longer decodes. -/
def badRaw : List Char := "\x7b\"a\": 1\x7d. tail\x7d".toList

/-- A well-formed response used by the concrete pipeline runs. -/
def goodRaw : List Char := "\x7b\"INVOICE_NUMBER\": \"42\"\x7d".toList

/-- The number of positioned substrings of the text that decode as a JSON
object: the formal reading of a text containing exactly one well-formed
JSON object when the count is 1. -/
def jsonObjectOccurrences (cs : List Char) : Nat :=
  ((List.range (cs.length + 1)).flatMap (fun i =>
    (List.range (cs.length + 1 - i)).map (fun l => (cs.drop i).take l))).countP
    (fun s => match jsonParse s with
      | some (.obj _) => true
      | _ => false)

lemma alookup_aupdate_self {α β : Type} [DecidableEq α] (l : List (α × β)) (k : α) (v : β) :
    alookup (aupdate l k v) k = some v := by
  induction l with
  | nil => simp [aupdate, alookup]
  | cons kv rest ih =>
    obtain ⟨k', v'⟩ := kv
    by_cases h : k' = k
    · simp [aupdate, alookup, h]
    · simp [aupdate, alookup, h, ih]

lemma alookup_aupdate_ne {α β : Type} [DecidableEq α] (l : List (α × β)) {k k' : α} (v : β)
    (h : k' ≠ k) : alookup (aupdate l k v) k' = alookup l k' := by
  induction l with
  | nil =>
    simp only [aupdate, alookup]
    rw [if_neg (Ne.symm h)]
  | cons kv rest ih =>
    obtain ⟨k₀, v₀⟩ := kv
    by_cases h₀ : k₀ = k
    · subst h₀
      simp only [aupdate, if_pos rfl, alookup]
      rw [if_neg (Ne.symm h), if_neg (Ne.symm h)]
    · simp only [aupdate, if_neg h₀, alookup]
      by_cases h₁ : k₀ = k'
      · rw [if_pos h₁, if_pos h₁]
      · rw [if_neg h₁, if_neg h₁]
        exact ih

lemma attempt_tracking {name raw : List Char} {rec : Record}
    (h : attemptExtract name raw = .ok rec) :
    alookup rec trackingKey = some (.str (extractTrackingNumber raw)) := by
  unfold attemptExtract at h
  cases hp : parseResponse raw with
  | error e => rw [hp] at h; cases h
  | ok v =>
    rw [hp] at h
    cases v with
    | obj kvs =>
      cases h
      rw [alookup_aupdate_ne _ _ (by decide), alookup_aupdate_self]
    | null => cases h
    | bool b => cases h
    | num n => cases h
    | str s => cases h
    | arr xs => cases h

lemma matchTrackAt_shape {l m : List Char} (h : matchTrackAt l = some m) :
    m.length = 18 ∧ m.take 2 = ['1', 'Z'] ∧ (m.drop 2).all isTrackChar = true := by
  cases l with
  | nil => simp [matchTrackAt] at h
  | cons c1 t =>
    cases t with
    | nil => simp [matchTrackAt] at h
    | cons c2 rest =>
      simp [matchTrackAt] at h
      obtain ⟨⟨⟨⟨h1, h2⟩, hlen⟩, hall⟩, hm⟩ := h
      subst hm; subst h1; subst h2
      refine ⟨?_, rfl, List.all_eq_true.mpr hall⟩
      simp [List.length_take, Nat.min_eq_left hlen]

lemma searchTrack_shape : ∀ {cs m : List Char}, searchTrack cs = some m →
    m.length = 18 ∧ m.take 2 = ['1', 'Z'] ∧ (m.drop 2).all isTrackChar = true := by
  intro cs
  induction cs with
  | nil => intro m h; cases h
  | cons c rest ih =>
    intro m h
    unfold searchTrack at h
    cases hm : matchTrackAt (c :: rest) with
    | some m' =>
      rw [hm] at h
      cases h
      exact matchTrackAt_shape hm
    | none =>
      rw [hm] at h
      exact ih h

lemma extractTracking_shape (raw : List Char) :
    extractTrackingNumber raw = noTrackingSentinel ∨
      ((extractTrackingNumber raw).length = 18 ∧
       (extractTrackingNumber raw).take 2 = ['1', 'Z'] ∧
       ((extractTrackingNumber raw).drop 2).all isTrackChar = true) := by
  cases hs : searchTrack raw with
  | none => left; simp [extractTrackingNumber, hs]
  | some m =>
    right
    have := searchTrack_shape hs
    simpa [extractTrackingNumber, hs] using this

/-- Claim C1, counterexample: on the spec's example input the extractor
does not return the 19-character string the spec names; the regex takes
the prefix 1Z and exactly the next 16 class characters, so the match is
the 18-character string that drops the example's final digit. -/
theorem trackingExample_counterexample :
    extractTrackingNumber trackingExampleInput ≠ "1Z12345D68905487401".toList ∧
    extractTrackingNumber trackingExampleInput = "1Z12345D6890548740".toList := by
  exact ⟨by decide, by rfl⟩

/-- Claim C1, amended: the extractor's pattern is the literal prefix 1Z
followed by exactly 16 uppercase-alphanumeric characters and it returns
the first match, so on the input shown it returns the 18-character match
1Z12345D6890548740 (not the spec's 19-character string), and on an input
with no match it returns the sentinel. -/
theorem trackingExample_amended :
    extractTrackingNumber trackingExampleInput = "1Z12345D6890548740".toList ∧
    extractTrackingNumber "no such code here".toList = "No Tracking Number Found".toList := by
  exact ⟨by rfl, by rfl⟩

/-- Claim C2: whenever an attempt succeeds with a record, the record's
TRACKING_NUMBER field equals the pattern-match result on the raw response
text — the regex result always overwrites whatever tracking value the
normalized model output contained, including the case where the pattern
does not match and the stored value is the sentinel. -/
theorem tracking_overwrite (name raw : List Char) (rec : Record)
    (h : attemptExtract name raw = .ok rec) :
    alookup rec trackingKey = some (.str (extractTrackingNumber raw)) :=
  attempt_tracking h

/-- A response whose JSON supplies a tracking value but whose text has no
regex match: the final field is the sentinel, not the model's value. -/
def overwriteRaw : List Char := "\x7b\"TRACKING_NUMBER\": \"ABC123\"\x7d".toList

theorem tracking_overwrite_witness :
    alookup ((attemptExtract "inv1.pdf".toList overwriteRaw).toOption.getD []) trackingKey
      = some (.str (extractTrackingNumber overwriteRaw)) :=
  tracking_overwrite "inv1.pdf".toList overwriteRaw _ (by rfl)

/-- Claim C10: in every record a successful attempt returns, the
TRACKING_NUMBER value is a string that is either exactly the sentinel or
18 characters long, starting with 1Z and continuing with 16 characters
drawn from uppercase letters and digits only; and lowercase characters
never match the pattern. -/
theorem tracking_invariant :
    (∀ (name raw : List Char) (rec : Record), attemptExtract name raw = .ok rec →
      ∃ s : List Char, alookup rec trackingKey = some (.str s) ∧
        (s = "No Tracking Number Found".toList ∨
          (s.length = 18 ∧ s.take 2 = ['1', 'Z'] ∧ (s.drop 2).all isTrackChar = true))) ∧
    extractTrackingNumber "ref 1Zabcdefghij123456".toList
      = "No Tracking Number Found".toList := by
  constructor
  · intro name raw rec h
    refine ⟨extractTrackingNumber raw, attempt_tracking h, ?_⟩
    simpa [noTrackingSentinel] using extractTracking_shape raw
  · rfl

/-- A response whose raw text contains a genuine tracking number. -/
def invariantRaw : List Char := "text 1Z999AA10123456784 and \x7b\"a\": \"b\"\x7d".toList

theorem tracking_invariant_witness :
    ∃ s : List Char,
      alookup ((attemptExtract "w.pdf".toList invariantRaw).toOption.getD []) trackingKey
        = some (.str s) ∧
      (s = "No Tracking Number Found".toList ∨
        (s.length = 18 ∧ s.take 2 = ['1', 'Z'] ∧ (s.drop 2).all isTrackChar = true)) :=
  tracking_invariant.1 "w.pdf".toList invariantRaw _ (by rfl)

lemma runFrom_removed_eq_created (name : List Char) (oracle : Nat → StageResult) :
    ∀ (m a : Nat), (runFrom name oracle a m).removed = (runFrom name oracle a m).created := by
  intro m
  induction m with
  | zero => intro a; rfl
  | succ r ih =>
    intro a
    cases r with
    | zero =>
      cases hs : stepOf name a (oracle a) with
      | ok rec => simp [runFrom, hs]
      | fail cr ms => simp [runFrom, hs]
    | succ r' =>
      cases hs : stepOf name a (oracle a) with
      | ok rec => simp [runFrom, hs]
      | fail cr ms =>
        simp only [runFrom, hs]
        simpa using ih (a + 1)

/-- The oracle of the spec's retry example: the stage fails exactly twice,
then succeeds. -/
def failTwiceOracle : Nat → StageResult :=
  fun n => if n < 2 then .inferFail else .response goodRaw

/-- Claim C8: every execution of the per-document retry loop removes
exactly as many temporary images as it creates, on the success and the
failure path alike — no temp image file leaks across attempts; and the
spec's example (a stage failing exactly twice, then succeeding, with
max_retries 3) succeeds with exactly 2 intermediate failure-path
cleanups over 3 created and 3 removed temp images. -/
theorem temp_cleanup :
    (∀ (name : List Char) (oracle : Nat → StageResult) (m a : Nat),
      (runFrom name oracle a m).removed = (runFrom name oracle a m).created) ∧
    ((processPdfRun "inv.pdf".toList failTwiceOracle 3).result).isSome = true ∧
    (processPdfRun "inv.pdf".toList failTwiceOracle 3).failCleanups = 2 ∧
    (processPdfRun "inv.pdf".toList failTwiceOracle 3).created = 3 ∧
    (processPdfRun "inv.pdf".toList failTwiceOracle 3).removed = 3 := by
  exact ⟨fun name oracle m a => runFrom_removed_eq_created name oracle m a,
    by rfl, by rfl, by rfl, by rfl⟩

lemma stepOf_fail {name : List Char} {o : StageResult} (a : Nat)
    (hf : stepFails name o = true) : ∃ cr ms, stepOf name a o = .fail cr ms := by
  cases o with
  | rasterFail => exact ⟨0, [], rfl⟩
  | inferFail => exact ⟨1, [], rfl⟩
  | response raw =>
    cases h : attemptExtract name raw with
    | ok rec => simp [stepFails, h] at hf
    | error e =>
      cases e with
      | noJson => exact ⟨1, [], by simp [stepOf, h]⟩
      | decodeFail => exact ⟨1, [Msg.parseWarn name a, Msg.respInfo raw], by simp [stepOf, h]⟩
      | notDict => exact ⟨1, [], by simp [stepOf, h]⟩

lemma runFrom_allFail (name : List Char) (oracle : Nat → StageResult)
    (hf : ∀ n, stepFails name (oracle n) = true) :
    ∀ (m a : Nat), (runFrom name oracle a m).attempts = m ∧
      (runFrom name oracle a m).result = none := by
  intro m
  induction m with
  | zero => intro a; exact ⟨rfl, rfl⟩
  | succ r ih =>
    intro a
    obtain ⟨cr, ms, hs⟩ := stepOf_fail a (hf a)
    cases r with
    | zero => simp [runFrom, hs]
    | succ r' =>
      simp only [runFrom, hs]
      have := ih (a + 1)
      constructor
      · simpa using this.1
      · simpa using this.2

/-- Claim C4: with max_retries 3 and a per-attempt processing that always
fails, the document is attempted exactly 3 times, yields no record, and
contributes nothing to the result set of any batch containing it. -/
theorem retries_exhausted (name : List Char) (oracle : Nat → StageResult)
    (hf : ∀ n, stepFails name (oracle n) = true) :
    (processPdfRun name oracle 3).attempts = 3 ∧
    (processPdfRun name oracle 3).result = none ∧
    ∀ (pre suf : List (List Char × (Nat → StageResult))),
      (processBatch (pre ++ (name, oracle) :: suf) 3).records
        = (processBatch (pre ++ suf) 3).records := by
  have h := runFrom_allFail name oracle hf 3 0
  refine ⟨h.1, h.2, ?_⟩
  intro pre suf
  simp [processBatch, List.map_append, List.filterMap_append, processPdfRun, h.2]

/-- The oracle of a document whose inference call always fails. -/
def alwaysInferFail : Nat → StageResult := fun _ => .inferFail

theorem retries_exhausted_witness :
    (processPdfRun "doc2.pdf".toList alwaysInferFail 3).attempts = 3 ∧
    (processPdfRun "doc2.pdf".toList alwaysInferFail 3).result = none ∧
    (processBatch ([] ++ ("doc2.pdf".toList, alwaysInferFail) :: []) 3).records
      = (processBatch ([] ++ []) 3).records := by
  have h := retries_exhausted "doc2.pdf".toList alwaysInferFail (fun n => rfl)
  exact ⟨h.1, h.2.1, h.2.2 [] []⟩

lemma runFrom_failed_msg (name : List Char) (oracle : Nat → StageResult) :
    ∀ (m a : Nat), 1 ≤ m → (runFrom name oracle a m).result = none →
      Msg.allRetriesFailed name ∈ (runFrom name oracle a m).msgs := by
  intro m
  induction m with
  | zero => intro a h; omega
  | succ r ih =>
    intro a _ hres
    cases r with
    | zero =>
      cases hs : stepOf name a (oracle a) with
      | ok rec => simp [runFrom, hs] at hres
      | fail cr ms => simp [runFrom, hs]
    | succ r' =>
      cases hs : stepOf name a (oracle a) with
      | ok rec => simp [runFrom, hs] at hres
      | fail cr ms =>
        simp only [runFrom, hs] at hres ⊢
        have := ih (a + 1) (by omega) (by simpa using hres)
        simp [this]

/-- Claim C7: a document whose attempts always fail leaves the records of
the documents before and after it untouched (no abort of the batch); every
document that ends with no record under at least one allowed attempt is
named explicitly in the emitted failure message; an all-failed batch emits
the distinct empty-result message; and the empty-result message differs
from every per-document failure message. -/
theorem batch_isolation :
    (∀ (pre suf : List (List Char × (Nat → StageResult))) (name : List Char)
        (oracle : Nat → StageResult) (k : Nat),
      (∀ n, stepFails name (oracle n) = true) →
      (processBatch (pre ++ (name, oracle) :: suf) k).records
        = (processBatch pre k).records ++ (processBatch suf k).records) ∧
    (∀ (inputs : List (List Char × (Nat → StageResult))) (k : Nat)
        (p : List Char × (Nat → StageResult)),
      p ∈ inputs → 1 ≤ k → (processPdfRun p.1 p.2 k).result = none →
      Msg.allRetriesFailed p.1 ∈ (processBatch inputs k).messages) ∧
    (∀ (inputs : List (List Char × (Nat → StageResult))) (k : Nat),
      (processBatch inputs k).records = [] →
      Msg.noData ∈ (processBatch inputs k).messages) ∧
    (∀ nm : List Char, Msg.noData ≠ Msg.allRetriesFailed nm) := by
  refine ⟨?_, ?_, ?_, ?_⟩
  · intro pre suf name oracle k hf
    have h := runFrom_allFail name oracle hf k 0
    simp [processBatch, List.map_append, List.filterMap_append, processPdfRun, h.2]
  · intro inputs k p hp hk hres
    have hmsg := runFrom_failed_msg p.1 p.2 k 0 hk hres
    simp only [processBatch, List.mem_append]
    left; left
    refine List.mem_flatMap.mpr ⟨(p.1, processPdfRun p.1 p.2 k), ?_, ?_⟩
    · exact List.mem_map.mpr ⟨p, hp, rfl⟩
    · simp [processPdfRun] at hmsg ⊢
      exact hmsg
  · intro inputs k hrec
    simp only [processBatch] at hrec ⊢
    simp only [List.mem_append]
    right
    simp [hrec, List.isEmpty_iff.mpr hrec]
  · intro nm h
    cases h

theorem batch_isolation_witness :
    (processBatch ([] ++ ("d2.pdf".toList, alwaysInferFail) :: []) 3).records
      = (processBatch [] 3).records ++ (processBatch [] 3).records ∧
    Msg.allRetriesFailed "d2.pdf".toList
      ∈ (processBatch [("d2.pdf".toList, alwaysInferFail)] 3).messages ∧
    Msg.noData ∈ (processBatch [("d2.pdf".toList, alwaysInferFail)] 3).messages := by
  refine ⟨batch_isolation.1 [] [] "d2.pdf".toList alwaysInferFail 3 (fun n => rfl), ?_, ?_⟩
  · exact batch_isolation.2.1 [("d2.pdf".toList, alwaysInferFail)] 3
      ("d2.pdf".toList, alwaysInferFail) (List.mem_singleton.mpr rfl) (by omega) (by rfl)
  · exact batch_isolation.2.2.1 [("d2.pdf".toList, alwaysInferFail)] 3 (by rfl)

lemma attempt_pdfFile {name raw : List Char} {rec : Record}
    (h : attemptExtract name raw = .ok rec) :
    alookup rec pdfFileKey = some (.str name) := by
  unfold attemptExtract at h
  cases hp : parseResponse raw with
  | error e => rw [hp] at h; cases h
  | ok v =>
    rw [hp] at h
    cases v with
    | obj kvs =>
      cases h
      rw [alookup_aupdate_self]
    | null => cases h
    | bool b => cases h
    | num n => cases h
    | str s => cases h
    | arr xs => cases h

lemma stepOf_ok {name : List Char} {a : Nat} {o : StageResult} {rec : Record}
    (h : stepOf name a o = .ok rec) : ∃ raw, attemptExtract name raw = .ok rec := by
  cases o with
  | rasterFail => cases h
  | inferFail => cases h
  | response raw =>
    cases ha : attemptExtract name raw with
    | ok r =>
      refine ⟨raw, ?_⟩
      simp only [stepOf, ha] at h
      cases h
      exact ha
    | error e =>
      cases e <;> simp [stepOf, ha] at h

lemma runFrom_result_pdfFile (name : List Char) (oracle : Nat → StageResult) :
    ∀ (m a : Nat) (rec : Record), (runFrom name oracle a m).result = some rec →
      alookup rec pdfFileKey = some (.str name) := by
  intro m
  induction m with
  | zero => intro a rec h; cases h
  | succ r ih =>
    intro a rec h
    cases r with
    | zero =>
      cases hs : stepOf name a (oracle a) with
      | ok rec' =>
        simp only [runFrom, hs] at h
        cases h
        obtain ⟨raw, ha⟩ := stepOf_ok hs
        exact attempt_pdfFile ha
      | fail cr ms => simp [runFrom, hs] at h
    | succ r' =>
      cases hs : stepOf name a (oracle a) with
      | ok rec' =>
        simp only [runFrom, hs] at h
        cases h
        obtain ⟨raw, ha⟩ := stepOf_ok hs
        exact attempt_pdfFile ha
      | fail cr ms =>
        simp only [runFrom, hs] at h
        exact ih (a + 1) rec (by simpa using h)

lemma records_map_pdfFile (k : Nat) :
    ∀ inputs : List (List Char × (Nat → StageResult)),
      ((processBatch inputs k).records).map (fun r => alookup r pdfFileKey)
        = (inputs.filter (fun p => ((processPdfRun p.1 p.2 k).result).isSome)).map
            (fun p => some (Json.str p.1)) := by
  intro inputs
  induction inputs with
  | nil => rfl
  | cons p rest ih =>
    obtain ⟨nm, orc⟩ := p
    simp only [processBatch, List.map_cons, List.filterMap_cons, List.filterMap_map] at ih ⊢
    cases hr : (processPdfRun nm orc k).result with
    | some rec =>
      have hpdf := runFrom_result_pdfFile nm orc k 0 rec hr
      simp [hr, List.filter_cons, hpdf, ih]
    | none =>
      simp [hr, List.filter_cons, ih]

/-- The oracle of a document whose model call succeeds immediately. -/
def respondGood : Nat → StageResult := fun _ => .response goodRaw

/-- The spec's end-to-end example batch: three documents, the second of
which always fails at inference. -/
def batch3 : List (List Char × (Nat → StageResult)) :=
  [("doc1.pdf".toList, respondGood),
   ("doc2.pdf".toList, alwaysInferFail),
   ("doc3.pdf".toList, respondGood)]

/-- Claim C6: the result collection holds exactly the records of the
documents that succeeded, in original input order, whatever the oracle
did per document; in the spec's 3-document example where document 2
always fails, the output has exactly 2 rows in the order doc1, doc3 and
document 2's failure is reported. -/
theorem results_order :
    (∀ (inputs : List (List Char × (Nat → StageResult))) (k : Nat),
      ((processBatch inputs k).records).map (fun r => alookup r pdfFileKey)
        = (inputs.filter (fun p => ((processPdfRun p.1 p.2 k).result).isSome)).map
            (fun p => some (Json.str p.1))) ∧
    ((processBatch batch3 3).records).map (fun r => alookup r pdfFileKey)
      = [some (.str "doc1.pdf".toList), some (.str "doc3.pdf".toList)] ∧
    ((processBatch batch3 3).records).length = 2 ∧
    Msg.allRetriesFailed "doc2.pdf".toList ∈ (processBatch batch3 3).messages := by
  refine ⟨fun inputs k => records_map_pdfFile k inputs, by rfl, by rfl, by decide⟩

lemma exportRows_lengths (recs : List Record) :
    ((exportTable recs).2).map List.length = List.replicate recs.length 8 := by
  induction recs with
  | nil => rfl
  | cons r rest ih =>
    simp only [exportTable, List.map_cons] at ih ⊢
    rw [ih]
    rfl

lemma batch_records_count (k : Nat) :
    ∀ inputs : List (List Char × (Nat → StageResult)),
      (processBatch inputs k).records.length
        = inputs.countP (fun p => ((processPdfRun p.1 p.2 k).result).isSome) := by
  intro inputs
  induction inputs with
  | nil => rfl
  | cons p rest ih =>
    obtain ⟨nm, orc⟩ := p
    simp only [processBatch, List.map_cons, List.filterMap_cons, List.filterMap_map,
      List.countP_cons] at ih ⊢
    cases hr : (processPdfRun nm orc k).result with
    | some rec => simp [hr, ih]
    | none => simp [hr, ih]

/-- Claim C5: the CSV header is exactly the 8 canonical column names in
order, independent of the records; every exported row has exactly those 8
cells (no index column, extra keys dropped); a missing field renders as
the empty cell; and there is exactly one row per succeeded document. -/
theorem csvExport_shape :
    csvHeaderLine
      = "INVOICE_DATE,INVOICE_NUMBER,CUSTOMER_PO,SUB_TOTAL,FREIGHT,TOTAL,TRACKING_NUMBER,pdf_file".toList ∧
    (∀ recs : List Record, (exportTable recs).1 = columnsOrder) ∧
    (∀ recs : List Record,
      ((exportTable recs).2).map List.length = List.replicate recs.length 8) ∧
    cellRender none = [] ∧
    (∀ (inputs : List (List Char × (Nat → StageResult))) (k : Nat),
      ((exportTable (processBatch inputs k).records).2).length
        = inputs.countP (fun p => ((processPdfRun p.1 p.2 k).result).isSome)) := by
  refine ⟨by rfl, fun recs => rfl, exportRows_lengths, rfl, ?_⟩
  intro inputs k
  simp only [exportTable, List.length_map]
  exact batch_records_count k inputs

/-- The canonical output schema field names (spec section 3). -/
def canonicalFields : List (List Char) :=
  ["INVOICE_DATE".toList, "INVOICE_NUMBER".toList, "CUSTOMER_PO".toList,
   "SUB_TOTAL".toList, "FREIGHT".toList, "TOTAL".toList, "TRACKING_NUMBER".toList]

lemma normKey_canonical : ∀ k ∈ canonicalFields, normKey k = k := by decide

lemma aupdate_of_lookup_none {β : Type} (v : β) :
    ∀ (l : List (List Char × β)) (k : List Char), alookup l k = none →
      aupdate l k v = l ++ [(k, v)] := by
  intro l
  induction l with
  | nil => intro k _; rfl
  | cons kv rest ih =>
    obtain ⟨k₀, v₀⟩ := kv
    intro k h
    by_cases h₀ : k₀ = k
    · simp [alookup, h₀] at h
    · simp only [alookup, if_neg h₀] at h
      simp [aupdate, h₀, ih k h]

lemma alookup_append_of_none {β : Type} (l₁ l₂ : List (List Char × β)) (k : List Char)
    (h : alookup l₁ k = none) : alookup (l₁ ++ l₂) k = alookup l₂ k := by
  induction l₁ with
  | nil => rfl
  | cons kv rest ih =>
    obtain ⟨k₀, v₀⟩ := kv
    by_cases h₀ : k₀ = k
    · simp [alookup, h₀] at h
    · simp only [alookup, if_neg h₀] at h
      simp only [List.cons_append, alookup, if_neg h₀]
      exact ih h

lemma normalize_foldl_fresh :
    ∀ (d : List (List Char × Json)) (acc : List (List Char × Json)),
      (∀ k ∈ d.map Prod.fst, normKey k = k) →
      (d.map Prod.fst).Nodup →
      (∀ k ∈ d.map Prod.fst, alookup acc k = none) →
      d.foldl (fun a kv => aupdate a (normKey kv.1) kv.2) acc = acc ++ d := by
  intro d
  induction d with
  | nil => intro acc _ _ _; simp
  | cons kv t ih =>
    obtain ⟨k, v⟩ := kv
    intro acc hid hnd hfresh
    have hk : normKey k = k := hid k (by simp)
    have hacc : alookup acc k = none := hfresh k (by simp)
    simp only [List.foldl_cons, hk]
    rw [aupdate_of_lookup_none v acc k hacc]
    have hpair := List.nodup_cons.mp (show (k :: t.map Prod.fst).Nodup from hnd)
    rw [ih (acc ++ [(k, v)])
      (fun k' hk' => hid k' (by simp [hk']))
      hpair.2
      (fun k' hk' => by
        rw [alookup_append_of_none _ _ _ (hfresh k' (by simp [hk']))]
        have : k ≠ k' := fun e => hpair.1 (e ▸ hk')
        simp [alookup, this])]
    simp

/-- Claim C9: normalizing a mapping whose keys are already canonical
returns it unchanged (idempotence on canonical input); a single entry is
rewritten to its normalized key with the value kept; and the normalized
key is exactly the trimmed, uppercased key sent through the alias table,
kept as-is when no alias matches — there is no failure mode. -/
theorem normalize_idempotent :
    (∀ d : List (List Char × Json),
      (∀ k ∈ d.map Prod.fst, k ∈ canonicalFields) →
      (d.map Prod.fst).Nodup →
      normalizeFieldNames d = d) ∧
    (∀ (k : List Char) (v : Json), normalizeFieldNames [(k, v)] = [(normKey k, v)]) ∧
    (∀ k : List Char,
      normKey k = (alookup fieldNameMapping (pyUpper (pyStrip k))).getD (pyUpper (pyStrip k))) := by
  refine ⟨?_, fun k v => rfl, fun k => rfl⟩
  intro d hcan hnd
  have := normalize_foldl_fresh d []
    (fun k hk => normKey_canonical k (hcan k hk)) hnd
    (fun k _ => rfl)
  simpa [normalizeFieldNames] using this

/-- A mapping that already carries canonical keys. -/
def canonicalSample : List (List Char × Json) :=
  [("INVOICE_DATE".toList, .str "01/02/2024".toList),
   ("TOTAL".toList, .num ['2', '5']),
   ("TRACKING_NUMBER".toList, .str "1Z999AA10123456784".toList)]

theorem normalize_idempotent_witness :
    normalizeFieldNames canonicalSample = canonicalSample :=
  normalize_idempotent.1 canonicalSample (by decide) (by decide)

lemma dropWhile_append_all {α : Type} (p : α → Bool) (l₁ l₂ : List α)
    (h : ∀ a ∈ l₁, p a = true) :
    (l₁ ++ l₂).dropWhile p = l₂.dropWhile p := by
  induction l₁ with
  | nil => rfl
  | cons a t ih =>
    rw [List.cons_append, List.dropWhile_cons_of_pos (h a (by simp))]
    exact ih (fun a' ha' => h a' (by simp [ha']))

lemma braceSpan_embed (pre mid suf : List Char)
    (h1 : '{' ∉ pre) (h2 : '}' ∉ suf) :
    braceSpan (pre ++ ('{' :: mid ++ ['}']) ++ suf) = '{' :: mid ++ ['}'] := by
  unfold braceSpan
  have hp : ∀ a ∈ pre, (a != '{') = true := by
    intro a ha
    simp only [bne_iff_ne, ne_eq]
    rintro rfl
    exact h1 ha
  have hs : ∀ a ∈ suf.reverse, (a != '}') = true := by
    intro a ha
    simp only [bne_iff_ne, ne_eq]
    rintro rfl
    exact h2 (List.mem_reverse.mp ha)
  have step1 : (pre ++ ('{' :: mid ++ ['}']) ++ suf).dropWhile (fun c => c != '{')
      = '{' :: (mid ++ ['}'] ++ suf) := by
    rw [List.append_assoc, dropWhile_append_all _ pre _ hp]
    rw [show ('{' :: mid ++ ['}']) ++ suf = '{' :: (mid ++ ['}'] ++ suf) by simp]
    rw [List.dropWhile_cons_of_neg (by simp)]
  rw [step1]
  have step2 : ('{' :: (mid ++ ['}'] ++ suf)).reverse
      = suf.reverse ++ ('}' :: (mid.reverse ++ ['{'])) := by
    simp
  rw [step2, dropWhile_append_all _ suf.reverse _ hs,
    List.dropWhile_cons_of_neg (by simp)]
  simp

/-- Claim C3, amended: the round-trip holds under the additional proviso
that the prose before the object contains no open brace and the prose
after it contains no close brace; the parser decodes the greedy span from
the first open brace to the last close brace of the text, so prose braces
outside the object can make it fail even when the text contains exactly
one well-formed JSON object. -/
theorem jsonRoundTrip_amended (pre mid suf : List Char) (v : Json)
    (h1 : '{' ∉ pre) (h2 : '}' ∉ suf)
    (hv : jsonParse ('{' :: mid ++ ['}']) = some v) :
    parseResponse (pre ++ ('{' :: mid ++ ['}']) ++ suf) = .ok v := by
  unfold parseResponse
  rw [braceSpan_embed pre mid suf h1 h2]
  simp only [List.cons_append] at hv ⊢
  rw [hv]
  rfl

theorem jsonRoundTrip_amended_witness :
    parseResponse ("note ".toList ++ ('{' :: "\"a\": 1".toList ++ ['}']) ++ " end".toList)
      = .ok (Json.obj [(['a'], Json.num ['1'])]) :=
  jsonRoundTrip_amended "note ".toList "\"a\": 1".toList " end".toList
    (Json.obj [(['a'], Json.num ['1'])]) (by decide) (by decide) (by rfl)

/-- Claim C3, counterexample: badRaw contains exactly one well-formed
JSON object (by positioned-substring count) surrounded by prose, the
object itself decodes, yet the parser reports a decode failure because the
prose after the object contains a close brace that extends the greedy
span. -/
theorem jsonRoundTrip_counterexample :
    jsonObjectOccurrences badRaw = 1 ∧
    jsonParse "\x7b\"a\": 1\x7d".toList = some (Json.obj [(['a'], Json.num ['1'])]) ∧
    parseResponse badRaw = .error PErr.decodeFail ∧
    parseResponse badRaw ≠ .ok (Json.obj [(['a'], Json.num ['1'])]) := by
  refine ⟨by rfl, by rfl, by rfl, ?_⟩
  intro h
  rw [show parseResponse badRaw = .error PErr.decodeFail from rfl] at h
  exact Except.noConfusion h
